import Mathlib

/-!
Verification of the record-aggregation core of the `pearl` movie-showtime
library against its specification.

The embedding models, faithfully to the Python source:

* `pearl/core.py` — the `Clip` container (`__init__`, `__add__`, `sort`,
  and the enrichment loop of `show`), together with `PearlError`;
* `pearl/parser.py` — the date-validation logic of
  `Parser.assure_validity` (the lines that check the requested day of
  month, the availability window, and the month rollover);
* `formatter.py` — the seat-availability classification used by
  `Clip_Formatter.print_clip` when colorizing `avail_cap`.

Python strings compare lexicographically by Unicode code point; this is
modelled by the executable comparisons `strLe` / `strLt` below.  Python's
`sorted` is a stable sort; it is modelled by a stable insertion sort
(`sortByTitle`), which is extensionally equal to any stable sort on the
same key.  Python dictionaries preserve the insertion order of their keys,
which is modelled by `dedupFirst` (first occurrence kept).  Python
truthiness of the `rate` field (where both `None` and the empty string are
falsy) is modelled by `pyOr` / `truthy`.
-/

namespace Pearl

/-! ### Code-point lexicographic string comparison (Python `<=` on `str`) -/

/-- Lexicographic comparison of char lists by Unicode code point,
mirroring how Python compares strings. -/
def listCharLe : List Char → List Char → Bool
  | [], _ => true
  | _ :: _, [] => false
  | a :: as, b :: bs =>
    if a.toNat < b.toNat then true
    else if b.toNat < a.toNat then false
    else listCharLe as bs

/-- Strict lexicographic comparison of char lists by Unicode code point. -/
def listCharLt : List Char → List Char → Bool
  | [], [] => false
  | [], _ :: _ => true
  | _ :: _, [] => false
  | a :: as, b :: bs =>
    if a.toNat < b.toNat then true
    else if b.toNat < a.toNat then false
    else listCharLt as bs

/-- Python `s <= t` on strings (code-point lexicographic). -/
def strLe (a b : String) : Bool := listCharLe a.data b.data

/-- Python `s < t` on strings (code-point lexicographic). -/
def strLt (a b : String) : Bool := listCharLt a.data b.data

/-! ### Data model of `pearl/core.py` -/

/-- One raw showtime record, i.e. the keyword-argument dictionary accepted
by `Clip.__init__` (`valid_keys = ('title', 'cinfo', 'hinfo', 'start',
'end', 'avail_cap', 'total_cap', 'rate')`).  `rate` is nullable
(`LotCi_Parser` produces `None` there). -/
structure Record where
  title : String
  cinfo : String
  hinfo : String
  start : String
  end_ : String
  avail_cap : Nat
  total_cap : Nat
  rate : Option String
deriving DecidableEq

/-- A record after `Clip.sort` popped `title` and `rate` from it: the
dictionary that is appended to a movie's `timeline`. -/
structure BaseEntry where
  cinfo : String
  hinfo : String
  start : String
  end_ : String
  avail_cap : Nat
  total_cap : Nat
deriving DecidableEq

/-- A timeline element.  After one `sort` these are `base` entries; if
`sort` is run again on already-grouped data (the source has no guard
against that), each grouped dictionary has `title` and `rate` popped and
the leftover single-key dictionary `\x7b'timeline': [...]\x7d` is appended,
which the `nest` constructor represents. -/
inductive TEntry where
  | base : BaseEntry → TEntry
  | nest : List TEntry → TEntry

/-- One grouped movie produced by `Clip.sort`:
`\x7b'title': ..., 'rate': ..., 'timeline': [...]\x7d`. -/
structure Movie where
  title : String
  rate : Option String
  timeline : List TEntry

/-- An element of `Clip.data`: either a raw record (before `sort`) or a
grouped movie dictionary (after `sort`).  Python keeps both in the same
untyped list. -/
inductive Entry where
  | record : Record → Entry
  | movie : Movie → Entry

/-- The `title` key, present on raw records and on grouped dictionaries. -/
def Entry.title : Entry → String
  | .record r => r.title
  | .movie m => m.title

/-- The `rate` key, present on raw records and on grouped dictionaries. -/
def Entry.rate : Entry → Option String
  | .record r => r.rate
  | .movie m => m.rate

/-- The dictionary left over after `timeline.pop('title')` and
`timeline.pop('rate')` in `Clip.sort`. -/
def Entry.rest : Entry → TEntry
  | .record r => .base ⟨r.cinfo, r.hinfo, r.start, r.end_, r.avail_cap, r.total_cap⟩
  | .movie m => .nest m.timeline

/-- `PearlError`, the library's only exception type (`pearl/core.py`). -/
structure PearlError where
  msg : String
deriving DecidableEq

/-- The `Clip` object: `self.data`, `self._is_sorted`,
`self._contains_detail` (`pearl/core.py`, `Clip.__init__`). -/
structure Clip where
  data : List Entry
  is_sorted : Bool
  contains_detail : Bool

/-- `Clip()` with no arguments: empty data, flags false. -/
def Clip.empty : Clip := ⟨[], false, false⟩

/-- `Clip(**kwargs)` with exactly the valid key set: one raw record. -/
def Clip.ofRecord (r : Record) : Clip := ⟨[Entry.record r], false, false⟩

/-- `Clip.__add__`: raises `PearlError` when either operand has been
sorted, otherwise `self.data += other.data; return self`. -/
def Clip.add (self other : Clip) : Except PearlError Clip :=
  if self.is_sorted || other.is_sorted then
    .error ⟨"Cannot add <core.Clip> classes after the `sort` method."⟩
  else
    .ok { self with data := self.data ++ other.data }

/-- Python `x or y` on the nullable `rate` strings:
`None` and `""` are falsy. -/
def pyOr (x y : Option String) : Option String :=
  match x with
  | none => y
  | some s => if s = "" then y else some s

/-- Python truthiness of a nullable string. -/
def truthy : Option String → Bool
  | none => false
  | some s => !(s == "")

/-- Key order of a Python dict built by repeated assignment: first
occurrence of each key, in encounter order (models the `raw_movies` dict
of `Clip.sort`). -/
def dedupFirst : List String → List String
  | [] => []
  | a :: l => a :: (dedupFirst l).filter (fun b => !(b == a))

/-- The sort key `lambda k: k['title']` of `Clip.sort`, as a Boolean
comparison. -/
def titleLe (a b : Entry) : Bool := strLe a.title b.title

/-- Stable insertion of an entry into a title-sorted list (an element is
placed before the first entry whose title is `>=` its own, so earlier
elements with an equal title stay in front). -/
def ordInsert (a : Entry) : List Entry → List Entry
  | [] => [a]
  | b :: l => if titleLe a b then a :: b :: l else b :: ordInsert a l

/-- `sorted(self.data, key=lambda k: k['title'])`: Python's `sorted` is a
stable sort, modelled by stable insertion sort (extensionally equal to any
stable sort on the same key). -/
def sortByTitle : List Entry → List Entry
  | [] => []
  | a :: l => ordInsert a (sortByTitle l)

/-- `movie[0]['title']` of a title group (groups are never empty when
`Clip.sort` reads them; the `""` branch is unreachable there). -/
def firstTitle : List Entry → String
  | [] => ""
  | e :: _ => e.title

/-- The rating consolidation loop of `Clip.sort`:
`mv['rate'] = timeline.pop('rate') or mv['rate']` folded over the group,
starting from `None`. -/
def consolidateRate (g : List Entry) : Option String :=
  g.foldl (fun acc e => pyOr e.rate acc) none

/-- The grouped dictionary `mv` built by `Clip.sort` for one title group:
title from the first member, consolidated rate, and the stripped members
appended to `timeline` in group order. -/
def buildMovie (g : List Entry) : Movie :=
  { title := firstTitle g
    rate := consolidateRate g
    timeline := g.map Entry.rest }

/-- The body of `Clip.sort` acting on `self.data`: stable-sort by title,
collect the distinct titles in first-occurrence order (the `raw_movies`
dict), bucket the sorted data by title, and build one grouped movie per
title. -/
def Clip.sortData (data : List Entry) : List Movie :=
  let s := sortByTitle data
  (dedupFirst (s.map Entry.title)).map
    (fun t => buildMovie (s.filter (fun e => e.title == t)))

/-- `Clip.sort`: the method never raises (it has no guard on
`self._is_sorted`); it regroups `self.data`, sets `_is_sorted = True` and
leaves `_contains_detail` unchanged.  The `Except` return mirrors the
possibility of a Python exception; the body raises none. -/
def Clip.sort (self : Clip) : Except PearlError Clip :=
  .ok { data := (Clip.sortData self.data).map Entry.movie
        is_sorted := true
        contains_detail := self.contains_detail }

/-- Whether an `Except` computation finished without raising. -/
def exceptOk {ε α : Type} : Except ε α → Bool
  | .ok _ => true
  | .error _ => false

/-- The `start` key of a timeline element (timeline elements produced from
raw records always carry one; the `nest` branch is unreachable for them). -/
def TEntry.startOf : TEntry → String
  | .base b => b.start
  | .nest _ => ""

/-! ### Enrichment step of `Clip.show` (`pearl/core.py`, lines 160-181) -/

/-- One value of the mapping returned by `get_detail` in `pearl/parser.py`:
the keys `title_EN`, `genre`, `nationality`, `openDate`, `directors`.  The
values are carried opaquely as strings here; `Clip.show` only copies them
verbatim on a hit. -/
structure Detail where
  title_EN : String
  genre : String
  nationality : String
  openDate : String
  directors : String
deriving DecidableEq

/-- A grouped movie dictionary after the enrichment loop of `Clip.show`
added the five metadata keys. -/
structure DetailedMovie where
  title : String
  rate : Option String
  timeline : List TEntry
  title_EN : String
  genre : String
  nationality : String
  openDate : String
  directors : String

/-- The per-movie body of the enrichment loop in `Clip.show`: look the
title up in `movie_details` after removing the Megabox dubbing tag
`'(더빙) '`; on a hit copy the five metadata fields, on a miss set all
five to the empty string.  No branch raises. -/
def enrichMovie (movie_details : String → Option Detail) (m : Movie) : DetailedMovie :=
  match movie_details (m.title.replace ("(더빙) ") ("")) with
  | some d => ⟨m.title, m.rate, m.timeline, d.title_EN, d.genre, d.nationality,
               d.openDate, d.directors⟩
  | none => ⟨m.title, m.rate, m.timeline, "", "", "", "", ""⟩

/-- The whole enrichment loop `for movie in self.data: ...` of `Clip.show`. -/
def enrichAll (movie_details : String → Option Detail) (ms : List Movie) :
    List DetailedMovie :=
  ms.map (enrichMovie movie_details)

/-! ### Date validation of `Parser.assure_validity` (`pearl/parser.py`) -/

/-- A Gregorian calendar date, standing for a Python `datetime` value
(only the date part is relevant to `assure_validity`). -/
structure PDate where
  year : Nat
  month : Nat
  day : Nat
deriving DecidableEq

/-- Gregorian leap-year rule, as implemented by Python's `datetime`. -/
def isLeapYear (y : Nat) : Bool :=
  (y % 4 == 0 && y % 100 != 0) || y % 400 == 0

/-- Number of days of a month, as implemented by Python's `datetime`. -/
def daysInMonth (y m : Nat) : Nat :=
  if m == 2 then (if isLeapYear y then 29 else 28)
  else if m == 4 || m == 6 || m == 9 || m == 11 then 30
  else 31

/-- The day after a date. -/
def nextDay (d : PDate) : PDate :=
  if d.day < daysInMonth d.year d.month then ⟨d.year, d.month, d.day + 1⟩
  else if d.month < 12 then ⟨d.year, d.month + 1, 1⟩
  else ⟨d.year + 1, 1, 1⟩

/-- `today + timedelta(days=k)`. -/
def addDays (d : PDate) : Nat → PDate
  | 0 => d
  | k + 1 => nextDay (addDays d k)

/-- Python `'%.2d' % n`: zero-pad to two digits. -/
def twoDigit (n : Nat) : String :=
  if n < 10 then "0" ++ toString n else toString n

/-- The kinds of Python exceptions the date-validation code can raise:
`PearlError` (explicitly raised), `AttributeError` (the out-of-window
branch calls `self.raise_error`, which `Parser` never defines),
`TypeError` (`timedelta(months=1)` — `timedelta` accepts no `months`
keyword argument), and `ValueError` (`strptime` on an impossible date). -/
inductive PyFailure where
  | pearlError : String → PyFailure
  | attributeError : PyFailure
  | typeError : PyFailure
  | valueError : PyFailure
deriving DecidableEq

/-- The date-checking part of `Parser.assure_validity` (`pearl/parser.py`,
lines 158-191), with the wall clock `datetime.now()` injected as `today`.
A `None` date resolves to `today`; otherwise the value must lie in
`[1, 31]`, its two-digit form must occur among the day-of-month strings of
`today + k` for `k < available_date_range`, and then the source runs
`today += timedelta(months=1)` whenever `today`'s day-of-month exceeds the
request — a call that always raises `TypeError`, because `timedelta` has
no `months` parameter.  Without rollover the result is assembled by
`datetime.strptime(today.strftime('%Y%m') + date, '%Y%m%d')`. -/
def assureValidityDate (today : PDate) (available_date_range : Nat)
    (date? : Option Int) : Except PyFailure PDate :=
  match date? with
  | none => .ok today
  | some d =>
    if 1 ≤ d ∧ d ≤ 31 then
      let dn := d.toNat
      let possible_dates :=
        (List.range available_date_range).map
          (fun k => twoDigit (addDays today k).day)
      if twoDigit dn ∈ possible_dates then
        if today.day > dn then
          .error .typeError
        else if dn ≤ daysInMonth today.year today.month then
          .ok ⟨today.year, today.month, dn⟩
        else
          .error .valueError
      else
        .error .attributeError
    else
      .error (.pearlError "Invalid date.")

/-! ### Seat-capacity classification of `Clip_Formatter.print_clip`
(`formatter.py`, lines 64-80) -/

/-- The three colour tiers `print_clip` assigns to `avail_cap`. -/
inductive Tier where
  | Low : Tier
  | Medium : Tier
  | High : Tier
deriving DecidableEq

/-- The branch structure colorizing `avail_cap`: red (`Low`) when
`avail_cap < int(total_cap / 4)`, yellow (`Medium`) when it is below
`int(total_cap / 2)`, blue (`High`) otherwise.  For non-negative seat
counts `int(x / k)` is floor division, i.e. `Nat` division. -/
def classify (avail_cap total_cap : Nat) : Tier :=
  if avail_cap < total_cap / 4 then .Low
  else if avail_cap < total_cap / 2 then .Medium
  else .High

/-! ### Concrete sample data used by witnesses and counterexamples -/

/-- A raw record of title `"A"` with a null rating. -/
def recA0 : Record :=
  ⟨"A", "CGV X", "2D 1", "10:00", "12:00", 10, 100, none⟩

/-- A raw record of title `"A"` rated `"12"`. -/
def recA12 : Record :=
  ⟨"A", "CGV X", "2D 2", "13:00", "15:00", 20, 100, some "12"⟩

/-- A raw record of title `"A"` rated `"15"`. -/
def recA15 : Record :=
  ⟨"A", "CGV X", "2D 3", "16:00", "18:00", 30, 100, some "15"⟩

/-- The record sequence of C1 with ratings `[null, "12", "15"]`. -/
def rsC1 : List Record := [recA0, recA12, recA15]

/-- The grouped movie that `Clip.sort` produces from `rsC1`. -/
def mvC1 : Movie :=
  { title := "A"
    rate := some "15"
    timeline := [.base ⟨"CGV X", "2D 1", "10:00", "12:00", 10, 100⟩,
                 .base ⟨"CGV X", "2D 2", "13:00", "15:00", 20, 100⟩,
                 .base ⟨"CGV X", "2D 3", "16:00", "18:00", 30, 100⟩] }

/-- Two same-title records whose `start` values arrive in descending
order. -/
def rsC2 : List Record :=
  [⟨"A", "CGV X", "2D 1", "12:00", "14:00", 10, 100, none⟩,
   ⟨"A", "CGV X", "2D 2", "10:00", "12:00", 20, 100, none⟩]

/-- The grouped movie that `Clip.sort` produces from `rsC2`: the timeline
keeps the insertion order `"12:00", "10:00"`. -/
def mvC2 : Movie :=
  { title := "A"
    rate := none
    timeline := [.base ⟨"CGV X", "2D 1", "12:00", "14:00", 10, 100⟩,
                 .base ⟨"CGV X", "2D 2", "10:00", "12:00", 20, 100⟩] }

/-- A finalized (sorted) empty clip, as produced by `Clip().sort()`. -/
def clipFinalized : Clip := ⟨[], true, false⟩

/-- A grouped movie with a title that no enrichment response contains. -/
def mvC5 : Movie := { title := "Unknown Film", rate := none, timeline := [] }

/-- An enrichment response with no keys at all. -/
def detailsEmpty : String → Option Detail := fun _ => none

/-- A single-record input for the order-preservation witness. -/
def rsC10 : List Record :=
  [⟨"B", "CGV Y", "2D 5", "09:00", "11:00", 7, 50, some "ALL"⟩]

/-- The grouped movie that `Clip.sort` produces from `rsC10`. -/
def mvC10 : Movie :=
  { title := "B"
    rate := some "ALL"
    timeline := [.base ⟨"CGV Y", "2D 5", "09:00", "11:00", 7, 50⟩] }

/-! ### Order theory of the code-point comparison -/

theorem listCharLe_cons_iff {x y : Char} {xs ys : List Char} :
    listCharLe (x :: xs) (y :: ys) = true ↔
      x.toNat < y.toNat ∨ (x.toNat = y.toNat ∧ listCharLe xs ys = true) := by
  simp only [listCharLe]
  split_ifs with h1 h2
  · simp [h1]
  · constructor
    · intro h; simp at h
    · rintro (h | ⟨h, _⟩) <;> omega
  · constructor
    · intro h; exact Or.inr ⟨by omega, h⟩
    · rintro (h | ⟨_, h3⟩)
      · omega
      · exact h3

theorem listCharLe_refl (l : List Char) : listCharLe l l = true := by
  induction l with
  | nil => rfl
  | cons a l ih => rw [listCharLe_cons_iff]; exact Or.inr ⟨rfl, ih⟩

theorem listCharLe_total (a b : List Char) :
    listCharLe a b = true ∨ listCharLe b a = true := by
  induction a generalizing b with
  | nil => exact Or.inl rfl
  | cons x xs ih =>
    cases b with
    | nil => exact Or.inr rfl
    | cons y ys =>
      rcases Nat.lt_trichotomy x.toNat y.toNat with h | h | h
      · exact Or.inl (listCharLe_cons_iff.mpr (Or.inl h))
      · rcases ih ys with h2 | h2
        · exact Or.inl (listCharLe_cons_iff.mpr (Or.inr ⟨h, h2⟩))
        · exact Or.inr (listCharLe_cons_iff.mpr (Or.inr ⟨h.symm, h2⟩))
      · exact Or.inr (listCharLe_cons_iff.mpr (Or.inl h))

theorem listCharLe_trans {a : List Char} : ∀ {b c : List Char},
    listCharLe a b = true → listCharLe b c = true → listCharLe a c = true := by
  induction a with
  | nil => intro b c _ _; rfl
  | cons x xs ih =>
    intro b c h1 h2
    cases b with
    | nil => simp [listCharLe] at h1
    | cons y ys =>
      cases c with
      | nil => simp [listCharLe] at h2
      | cons z zs =>
        rw [listCharLe_cons_iff] at h1 h2 ⊢
        rcases h1 with h1 | ⟨h1e, h1r⟩ <;> rcases h2 with h2 | ⟨h2e, h2r⟩
        · exact Or.inl (by omega)
        · exact Or.inl (by omega)
        · exact Or.inl (by omega)
        · exact Or.inr ⟨by omega, ih h1r h2r⟩

theorem listCharLe_antisymm {a : List Char} : ∀ {b : List Char},
    listCharLe a b = true → listCharLe b a = true → a = b := by
  induction a with
  | nil =>
    intro b h1 h2
    cases b with
    | nil => rfl
    | cons y ys => simp [listCharLe] at h2
  | cons x xs ih =>
    intro b h1 h2
    cases b with
    | nil => simp [listCharLe] at h1
    | cons y ys =>
      rw [listCharLe_cons_iff] at h1 h2
      rcases h1 with h1 | ⟨h1e, h1r⟩ <;> rcases h2 with h2 | ⟨h2e, h2r⟩ <;>
        try omega
      have hxy : x = y := Char.ext (UInt32.ext h1e)
      rw [hxy, ih h1r h2r]

theorem listCharLt_cons_iff {x y : Char} {xs ys : List Char} :
    listCharLt (x :: xs) (y :: ys) = true ↔
      x.toNat < y.toNat ∨ (x.toNat = y.toNat ∧ listCharLt xs ys = true) := by
  simp only [listCharLt]
  split_ifs with h1 h2
  · simp [h1]
  · constructor
    · intro h; simp at h
    · rintro (h | ⟨h, _⟩) <;> omega
  · constructor
    · intro h; exact Or.inr ⟨by omega, h⟩
    · rintro (h | ⟨_, h3⟩)
      · omega
      · exact h3

theorem listCharLt_iff : ∀ {a b : List Char},
    listCharLt a b = true ↔ (listCharLe a b = true ∧ a ≠ b) := by
  intro a
  induction a with
  | nil =>
    intro b
    cases b with
    | nil => simp [listCharLt, listCharLe]
    | cons y ys => simp [listCharLt, listCharLe]
  | cons x xs ih =>
    intro b
    cases b with
    | nil => simp [listCharLt, listCharLe]
    | cons y ys =>
      rw [listCharLt_cons_iff, listCharLe_cons_iff]
      constructor
      · rintro (h | ⟨he, hr⟩)
        · refine ⟨Or.inl h, fun hcontra => ?_⟩
          have hxy : x = y := by injection hcontra
          rw [hxy] at h
          omega
        · rcases ih.mp hr with ⟨hle, hne⟩
          refine ⟨Or.inr ⟨he, hle⟩, fun hcontra => ?_⟩
          injection hcontra with _ h2
          exact hne h2
      · rintro ⟨h | ⟨he, hle⟩, hne⟩
        · exact Or.inl h
        · refine Or.inr ⟨he, ih.mpr ⟨hle, fun h2 => ?_⟩⟩
          have hxy : x = y := Char.ext (UInt32.ext he)
          rw [hxy, h2] at hne
          exact hne rfl

theorem strLe_refl (s : String) : strLe s s = true := listCharLe_refl _

theorem strLe_total (a b : String) : strLe a b = true ∨ strLe b a = true :=
  listCharLe_total _ _

theorem strLe_trans {a b c : String} (h1 : strLe a b = true)
    (h2 : strLe b c = true) : strLe a c = true :=
  listCharLe_trans h1 h2

theorem strLe_antisymm {a b : String} (h1 : strLe a b = true)
    (h2 : strLe b a = true) : a = b :=
  String.ext (listCharLe_antisymm h1 h2)

theorem strLt_iff {a b : String} :
    strLt a b = true ↔ (strLe a b = true ∧ a ≠ b) := by
  unfold strLt strLe
  rw [listCharLt_iff]
  have hd : a.data = b.data ↔ a = b := ⟨String.ext, fun h => by rw [h]⟩
  rw [ne_eq, ne_eq, hd]

theorem titleLe_refl (e : Entry) : titleLe e e = true := strLe_refl _

theorem titleLe_total (a b : Entry) : titleLe a b = true ∨ titleLe b a = true :=
  strLe_total _ _

theorem titleLe_trans {a b c : Entry} (h1 : titleLe a b = true)
    (h2 : titleLe b c = true) : titleLe a c = true :=
  strLe_trans h1 h2

/-! ### The stable sort of `Clip.sort` -/

theorem ordInsert_perm (a : Entry) (l : List Entry) :
    (ordInsert a l).Perm (a :: l) := by
  induction l with
  | nil => exact List.Perm.refl _
  | cons b l ih =>
    by_cases h : titleLe a b = true
    · simp only [ordInsert, h, if_true]
      exact List.Perm.refl _
    · simp only [ordInsert, h, if_false]
      exact (ih.cons b).trans (List.Perm.swap a b l)

theorem sortByTitle_perm (l : List Entry) : (sortByTitle l).Perm l := by
  induction l with
  | nil => exact List.Perm.refl _
  | cons a l ih =>
    exact (ordInsert_perm a (sortByTitle l)).trans (ih.cons a)

theorem pairwise_ordInsert {a : Entry} {l : List Entry}
    (h : l.Pairwise (fun x y => titleLe x y = true)) :
    (ordInsert a l).Pairwise (fun x y => titleLe x y = true) := by
  induction l with
  | nil => simp [ordInsert]
  | cons b l ih =>
    rw [List.pairwise_cons] at h
    by_cases hab : titleLe a b = true
    · simp only [ordInsert, hab, if_true]
      refine List.Pairwise.cons ?_ (List.Pairwise.cons h.1 h.2)
      intro x hx
      rcases List.mem_cons.mp hx with rfl | hx
      · exact hab
      · exact titleLe_trans hab (h.1 x hx)
    · have hba : titleLe b a = true := (titleLe_total a b).resolve_left hab
      simp only [ordInsert, hab, if_false]
      refine List.Pairwise.cons ?_ (ih h.2)
      intro x hx
      rcases List.mem_cons.mp ((ordInsert_perm a l).mem_iff.mp hx) with rfl | hx
      · exact hba
      · exact h.1 x hx

theorem pairwise_sortByTitle (l : List Entry) :
    (sortByTitle l).Pairwise (fun x y => titleLe x y = true) := by
  induction l with
  | nil => exact List.Pairwise.nil
  | cons a l ih => exact pairwise_ordInsert ih

theorem filter_ordInsert_of_title_eq {a : Entry} {t : String}
    (ha : a.title = t) (l : List Entry) :
    (ordInsert a l).filter (fun e => e.title == t) =
      a :: l.filter (fun e => e.title == t) := by
  induction l with
  | nil => simp [ordInsert, List.filter_cons, ha]
  | cons b l ih =>
    by_cases hab : titleLe a b = true
    · simp only [ordInsert]
      rw [if_pos hab, List.filter_cons, List.filter_cons]
      simp [ha]
    · have hbt : ¬ (b.title = t) := by
        intro hb
        apply hab
        unfold titleLe
        rw [ha, hb]
        exact strLe_refl t
      simp only [ordInsert]
      rw [if_neg hab, List.filter_cons, ih]
      simp [hbt]

theorem filter_ordInsert_of_title_ne {a : Entry} {t : String}
    (ha : ¬ (a.title = t)) (l : List Entry) :
    (ordInsert a l).filter (fun e => e.title == t) =
      l.filter (fun e => e.title == t) := by
  induction l with
  | nil => simp [ordInsert, List.filter_cons, ha]
  | cons b l ih =>
    by_cases hab : titleLe a b = true
    · simp only [ordInsert]
      rw [if_pos hab, List.filter_cons]
      simp [ha]
    · simp only [ordInsert]
      rw [if_neg hab, List.filter_cons, ih, List.filter_cons]

theorem filter_sortByTitle (l : List Entry) (t : String) :
    (sortByTitle l).filter (fun e => e.title == t) =
      l.filter (fun e => e.title == t) := by
  induction l with
  | nil => rfl
  | cons a l ih =>
    show (ordInsert a (sortByTitle l)).filter _ = _
    by_cases ha : a.title = t
    · rw [filter_ordInsert_of_title_eq ha, ih, List.filter_cons]
      simp [ha]
    · rw [filter_ordInsert_of_title_ne ha, ih, List.filter_cons]
      simp [ha]

/-! ### First-occurrence key order of the `raw_movies` dict -/

theorem mem_dedupFirst (x : String) (l : List String) :
    x ∈ dedupFirst l ↔ x ∈ l := by
  induction l with
  | nil => simp [dedupFirst]
  | cons a l ih =>
    simp only [dedupFirst, List.mem_cons, List.mem_filter]
    constructor
    · rintro (rfl | ⟨hx, _⟩)
      · exact Or.inl rfl
      · exact Or.inr (ih.mp hx)
    · rintro (rfl | hx)
      · exact Or.inl rfl
      · by_cases hxa : x = a
        · exact Or.inl hxa
        · refine Or.inr ⟨ih.mpr hx, ?_⟩
          simp [hxa]

theorem nodup_dedupFirst (l : List String) :
    (dedupFirst l).Pairwise (fun a b => a ≠ b) := by
  induction l with
  | nil => exact List.Pairwise.nil
  | cons a l ih =>
    refine List.Pairwise.cons ?_ (ih.filter _)
    intro b hb
    have hba : (b == a) = false := by
      have := (List.mem_filter.mp hb).2
      simpa using this
    intro hab
    rw [hab] at hba
    simp at hba

theorem pairwise_dedupFirst {R : String → String → Prop} {l : List String}
    (h : l.Pairwise R) : (dedupFirst l).Pairwise R := by
  induction l with
  | nil => exact List.Pairwise.nil
  | cons a l ih =>
    rw [List.pairwise_cons] at h
    refine List.Pairwise.cons ?_ ((ih h.2).filter _)
    intro b hb
    have hbl : b ∈ l :=
      (mem_dedupFirst b l).mp (List.mem_filter.mp hb).1
    exact h.1 b hbl

/-! ### Characterisation of the grouping done by `Clip.sort` -/

theorem title_buildMovie_filter {s : List Entry} {t : String}
    (h : t ∈ s.map Entry.title) :
    (buildMovie (s.filter (fun e => e.title == t))).title = t := by
  obtain ⟨e, he, het⟩ := List.mem_map.mp h
  have hmem : e ∈ s.filter (fun e2 => e2.title == t) :=
    List.mem_filter.mpr ⟨he, by simp [het]⟩
  cases hf : s.filter (fun e2 => e2.title == t) with
  | nil =>
    rw [hf] at hmem
    exact absurd hmem (List.not_mem_nil e)
  | cons e2 l2 =>
    have h2 : e2 ∈ s.filter (fun e2 => e2.title == t) := by
      rw [hf]; exact List.mem_cons_self e2 l2
    have h3 : e2.title = t := by
      have := (List.mem_filter.mp h2).2
      simpa using this
    show firstTitle (e2 :: l2) = t
    exact h3

/-- Every grouped movie produced by `Clip.sortData` is the one built from
its own title's bucket in the sorted data, and its title occurs in the
input. -/
theorem sortData_mem {data : List Entry} {m : Movie}
    (hm : m ∈ Clip.sortData data) :
    m = buildMovie ((sortByTitle data).filter (fun e => e.title == m.title)) ∧
    m.title ∈ data.map Entry.title := by
  unfold Clip.sortData at hm
  obtain ⟨t, ht, hM⟩ := List.mem_map.mp hm
  have ht2 : t ∈ (sortByTitle data).map Entry.title :=
    (mem_dedupFirst t _).mp ht
  have htt : (buildMovie ((sortByTitle data).filter
      (fun e => e.title == t))).title = t :=
    title_buildMovie_filter ht2
  have hmt : m.title = t := by rw [hM] at htt; exact htt
  constructor
  · rw [hmt, ← hM]
  · rw [hmt]
    exact ((sortByTitle_perm data).map Entry.title).mem_iff.mp ht2

/-- The titles of the grouped movies are exactly the distinct titles of the
sorted data, in first-occurrence (i.e. ascending) order. -/
theorem map_title_sortData (data : List Entry) :
    (Clip.sortData data).map Movie.title =
      dedupFirst ((sortByTitle data).map Entry.title) := by
  unfold Clip.sortData
  rw [List.map_map]
  have h : ∀ t ∈ dedupFirst ((sortByTitle data).map Entry.title),
      (Movie.title ∘ fun t =>
        buildMovie ((sortByTitle data).filter (fun e => e.title == t))) t =
      id t := by
    intro t ht
    exact title_buildMovie_filter ((mem_dedupFirst t _).mp ht)
  rw [List.map_congr_left h, List.map_id]

/-- The timeline of each grouped movie lists exactly the records of its
title, stripped of `title` and `rate`, in original input order (stability
of the sort). -/
theorem sortData_timeline (rs : List Record) (m : Movie)
    (hm : m ∈ Clip.sortData (rs.map Entry.record)) :
    m.timeline = (rs.filter (fun r => r.title == m.title)).map
      (fun r => Entry.rest (Entry.record r)) := by
  obtain ⟨hEq, _⟩ := sortData_mem hm
  have htl : m.timeline = ((sortByTitle (rs.map Entry.record)).filter
      (fun e => e.title == m.title)).map Entry.rest := by
    conv_lhs => rw [hEq]
    rfl
  rw [htl, filter_sortByTitle, List.filter_map, List.map_map]
  rfl

/-! ### Arithmetic of the grouping -/

theorem length_filter_split {α : Type} (p : α → Bool) (l : List α) :
    (l.filter p).length + (l.filter (fun a => !(p a))).length = l.length := by
  induction l with
  | nil => rfl
  | cons a l ih =>
    by_cases h : p a = true <;> simp [List.filter_cons, h] <;> omega

theorem sum_group_lengths : ∀ (ts : List String) (l : List Entry),
    ts.Pairwise (fun a b => a ≠ b) → (∀ e ∈ l, e.title ∈ ts) →
    (ts.map (fun t => (l.filter (fun e => e.title == t)).length)).sum =
      l.length := by
  intro ts
  induction ts with
  | nil =>
    intro l _ hcov
    cases l with
    | nil => rfl
    | cons e l => exact absurd (hcov e (List.mem_cons_self e l)) (List.not_mem_nil _)
  | cons t ts ih =>
    intro l hnd hcov
    rw [List.pairwise_cons] at hnd
    rw [List.map_cons, List.sum_cons]
    have hmap : ∀ t2 ∈ ts,
        (fun t2 => (l.filter (fun e => e.title == t2)).length) t2 =
        (fun t2 => ((l.filter (fun e => !(e.title == t))).filter
          (fun e => e.title == t2)).length) t2 := by
      intro t2 ht2
      show (l.filter (fun e => e.title == t2)).length =
        ((l.filter (fun e => !(e.title == t))).filter
          (fun e => e.title == t2)).length
      rw [List.filter_filter]
      congr 1
      apply List.filter_congr
      intro e _
      by_cases he2 : e.title = t2
      · have hnet : ¬ (e.title = t) := by
          rw [he2]
          exact fun h => (hnd.1 t2 ht2) h.symm
        have hq : ¬ t2 = t := fun h => (hnd.1 t2 ht2) h.symm
        simp [he2, hnet, hq]
      · simp [he2]
    rw [List.map_congr_left hmap]
    rw [ih (l.filter (fun e => !(e.title == t))) hnd.2 ?_]
    · exact length_filter_split (fun e => e.title == t) l
    · intro e he
      obtain ⟨hel, hne⟩ := List.mem_filter.mp he
      have : e.title ∈ t :: ts := hcov e hel
      rcases List.mem_cons.mp this with h | h
      · rw [h] at hne; simp at hne
      · exact h

/-- The total number of timeline entries equals the number of input
entries. -/
theorem sortData_length_sum (data : List Entry) :
    ((Clip.sortData data).map (fun m => m.timeline.length)).sum =
      data.length := by
  unfold Clip.sortData
  rw [List.map_map]
  have h : ∀ t ∈ dedupFirst ((sortByTitle data).map Entry.title),
      ((fun m => m.timeline.length) ∘ fun t =>
        buildMovie ((sortByTitle data).filter (fun e => e.title == t))) t =
      (fun t => ((sortByTitle data).filter
        (fun e => e.title == t)).length) t := by
    intro t _
    simp [buildMovie]
  rw [List.map_congr_left h]
  rw [sum_group_lengths _ _ (nodup_dedupFirst _) ?_]
  · exact (sortByTitle_perm data).length_eq
  · intro e he
    exact (mem_dedupFirst _ _).mpr
      (List.mem_map.mpr ⟨e, he, rfl⟩)

/-! ### The rating fold -/

theorem pyOr_eq_ite (x acc : Option String) :
    pyOr x acc = if truthy x = true then x else acc := by
  cases x with
  | none => simp [pyOr, truthy]
  | some s =>
    by_cases h : s = ""
    · simp [pyOr, truthy, h]
    · simp [pyOr, truthy, h]

theorem foldl_pyOr_find (l : List (Option String)) (acc : Option String) :
    l.foldl (fun a x => pyOr x a) acc =
      (l.reverse.find? truthy).getD acc := by
  induction l generalizing acc with
  | nil => rfl
  | cons x xs ih =>
    rw [List.foldl_cons, ih (pyOr x acc), List.reverse_cons, List.find?_append]
    cases hfind : xs.reverse.find? truthy with
    | some y => simp [Option.or]
    | none =>
      rw [pyOr_eq_ite]
      by_cases hx : truthy x = true <;>
        simp [List.find?_cons, hx, Option.or]

theorem find?_map_list {α β : Type} (f : α → β) (p : β → Bool) (l : List α) :
    (l.map f).find? p = (l.find? (fun a => p (f a))).map f := by
  induction l with
  | nil => rfl
  | cons a l ih =>
    by_cases h : p (f a) = true <;>
      simp [List.find?_cons, h, ih]

theorem foldl_rate_records (l : List Record) (acc : Option String) :
    (l.map Entry.record).foldl (fun a e => pyOr e.rate a) acc =
      (l.map Record.rate).foldl (fun a x => pyOr x a) acc := by
  induction l generalizing acc with
  | nil => rfl
  | cons r l ih =>
    rw [List.map_cons, List.foldl_cons, List.map_cons, List.foldl_cons]
    exact ih (pyOr r.rate acc)

/-- On a list of raw records, the rating fold of `Clip.sort` returns the
rate of the last record whose rate is truthy (non-null and non-empty), or
`none` when there is no such record. -/
theorem consolidateRate_records (l : List Record) :
    consolidateRate (l.map Entry.record) =
      (l.reverse.find? (fun r => truthy r.rate)).bind Record.rate := by
  show (l.map Entry.record).foldl (fun a e => pyOr e.rate a) none = _
  rw [foldl_rate_records l none, foldl_pyOr_find]
  rw [show (l.map Record.rate).reverse = l.reverse.map Record.rate from
    (List.map_reverse Record.rate l).symm]
  rw [find?_map_list]
  cases l.reverse.find? (fun r => truthy r.rate) with
  | none => rfl
  | some r => rfl

/-! ### Claim theorems -/

/-- Claim C1 (corrected): the rating consolidation of `Clip.sort` keeps
the LAST truthy rating, not the first non-null one.  For every record
sequence and every grouped movie, the consolidated rating equals the rate
of the last record of that title (in insertion order) whose rate is truthy
(non-null, non-empty), or null if there is none. -/
theorem C1_rating_consolidation (rs : List Record) (m : Movie)
    (hm : m ∈ Clip.sortData (rs.map Entry.record)) :
    m.rate = ((rs.filter (fun r => r.title == m.title)).reverse.find?
      (fun r => truthy r.rate)).bind Record.rate := by
  obtain ⟨hEq, _⟩ := sortData_mem hm
  have hr : m.rate = consolidateRate ((sortByTitle (rs.map Entry.record)).filter
      (fun e => e.title == m.title)) := by
    conv_lhs => rw [hEq]
    rfl
  rw [hr, filter_sortByTitle, List.filter_map]
  exact consolidateRate_records
    (rs.filter ((fun e => e.title == m.title) ∘ Entry.record))

/-- Claim C1, counterexample to the claim as stated: for ratings
`[null, "12", "15"]` in that order, the consolidated rating is `"15"`,
not `"12"` — later non-null ratings overwrite earlier ones. -/
theorem C1_rating_consolidation_counterexample :
    (Clip.sortData (rsC1.map Entry.record)).map Movie.rate = [some "15"] ∧
    ¬ ((Clip.sortData (rsC1.map Entry.record)).map Movie.rate = [some "12"]) :=
  ⟨rfl, by decide⟩

/-- Claim C1, witness: the corrected statement evaluated on the concrete
`[null, "12", "15"]` input. -/
theorem C1_rating_consolidation_witness :
    mvC1 ∈ Clip.sortData (rsC1.map Entry.record) ∧
    mvC1.rate = ((rsC1.filter (fun r => r.title == mvC1.title)).reverse.find?
      (fun r => truthy r.rate)).bind Record.rate :=
  have hmem : mvC1 ∈ Clip.sortData (rsC1.map Entry.record) := List.Mem.head _
  ⟨hmem, C1_rating_consolidation rsC1 mvC1 hmem⟩

/-- Claim C2 (corrected): `Clip.sort` never sorts timelines by `start`;
each grouped movie's timeline lists the `start` values of its records in
original insertion order. -/
theorem C2_timeline_order (rs : List Record) (m : Movie)
    (hm : m ∈ Clip.sortData (rs.map Entry.record)) :
    m.timeline.map TEntry.startOf =
      (rs.filter (fun r => r.title == m.title)).map Record.start := by
  rw [sortData_timeline rs m hm, List.map_map]
  rfl

/-- Claim C2, counterexample to the claim as stated: two same-title
records arriving with starts `"12:00"` then `"10:00"` keep that order
after `Clip.sort`, so `timeline[0].start <= timeline[1].start` fails under
string-lexicographic comparison. -/
theorem C2_timeline_order_counterexample :
    (Clip.sortData (rsC2.map Entry.record)).map
      (fun m => m.timeline.map TEntry.startOf) = [["12:00", "10:00"]] ∧
    strLe ("12:00") ("10:00") = false :=
  ⟨rfl, rfl⟩

/-- Claim C2, witness: the corrected statement evaluated on the concrete
descending-starts input. -/
theorem C2_timeline_order_witness :
    mvC2 ∈ Clip.sortData (rsC2.map Entry.record) ∧
    mvC2.timeline.map TEntry.startOf =
      (rsC2.filter (fun r => r.title == mvC2.title)).map Record.start :=
  have hmem : mvC2 ∈ Clip.sortData (rsC2.map Entry.record) := List.Mem.head _
  ⟨hmem, C2_timeline_order rsC2 mvC2 hmem⟩

/-- Claim C3 (corrected): after `sort`, merging (with the finalized clip
as either operand) fails with a `PearlError`; but calling `sort` a second
time does NOT fail — `Clip.sort` has no state guard and completes on any
clip. -/
theorem C3_one_way_state (a b c : Clip)
    (h : a.is_sorted = true ∨ b.is_sorted = true) :
    Clip.add a b =
      .error ⟨"Cannot add <core.Clip> classes after the `sort` method."⟩ ∧
    exceptOk (Clip.sort c) = true := by
  constructor
  · unfold Clip.add
    rcases h with h | h <;> rw [h] <;> simp
  · rfl

/-- Claim C3, counterexample to the claim as stated: sorting a clip twice
raises nothing — the second `sort` also returns normally. -/
theorem C3_one_way_state_counterexample :
    exceptOk ((Clip.sort (Clip.ofRecord recA0)).bind Clip.sort) = true := rfl

/-- Claim C3, witness: the corrected statement on a concrete finalized
clip. -/
theorem C3_one_way_state_witness :
    (clipFinalized.is_sorted = true ∨ Clip.empty.is_sorted = true) ∧
    (Clip.add clipFinalized Clip.empty =
      .error ⟨"Cannot add <core.Clip> classes after the `sort` method."⟩ ∧
     exceptOk (Clip.sort Clip.empty) = true) :=
  ⟨Or.inl rfl, C3_one_way_state clipFinalized Clip.empty Clip.empty (Or.inl rfl)⟩

/-- Claim C4 (code bug): with `today` being day 28 of a 31-day month,
`available_date_range = 6` and requested day 2, the request passes the
`[1, 31]` check and the availability-window check, but the rollover branch
then executes `today += timedelta(months=1)`, which raises `TypeError`
(`timedelta` has no `months` keyword) instead of resolving to day 2 of the
following month. -/
theorem C4_date_rollover_bug :
    assureValidityDate ⟨2026, 1, 28⟩ 6 (some 2) = .error PyFailure.typeError ∧
    ¬ (assureValidityDate ⟨2026, 1, 28⟩ 6 (some 2) =
        .ok (⟨2026, 2, 2⟩ : PDate)) ∧
    ((1 : Int) ≤ 2 ∧ (2 : Int) ≤ 31) ∧
    twoDigit 2 ∈ (List.range 6).map
      (fun k => twoDigit (addDays ⟨2026, 1, 28⟩ k).day) :=
  ⟨rfl,
   fun hcontra => Except.noConfusion
     ((show assureValidityDate ⟨2026, 1, 28⟩ 6 (some 2) =
        Except.error PyFailure.typeError from rfl).symm.trans hcontra),
   by decide, by decide⟩

/-- Claim C5 (confirmed): when a grouped movie's (dubbing-tag-stripped)
title is absent from the enrichment mapping, the enrichment loop of
`Clip.show` sets all five metadata fields to the empty string, keeps the
movie's own data, and completes for the whole list without failing. -/
theorem C5_enrichment_miss (movie_details : String → Option Detail)
    (ms : List Movie) (m : Movie) (hm : m ∈ ms)
    (hmiss : movie_details (m.title.replace ("(더빙) ") ("")) = none) :
    enrichMovie movie_details m =
      ⟨m.title, m.rate, m.timeline, "", "", "", "", ""⟩ ∧
    (enrichAll movie_details ms).length = ms.length := by
  constructor
  · unfold enrichMovie
    rw [hmiss]
  · unfold enrichAll
    rw [List.length_map]

/-- Claim C5, witness: the miss fallback on the concrete title
`"Unknown Film"` and an empty enrichment response. -/
theorem C5_enrichment_miss_witness :
    (mvC5 ∈ [mvC5] ∧
     detailsEmpty (mvC5.title.replace ("(더빙) ") ("")) = none) ∧
    (enrichMovie detailsEmpty mvC5 =
      ⟨mvC5.title, mvC5.rate, mvC5.timeline, "", "", "", "", ""⟩ ∧
     (enrichAll detailsEmpty [mvC5]).length = [mvC5].length) :=
  ⟨⟨List.Mem.head _, rfl⟩,
   C5_enrichment_miss detailsEmpty [mvC5] mvC5 (List.Mem.head _) rfl⟩

/-- Claim C6 (confirmed): `Clip.sort` emits grouped movies in strictly
ascending code-point-lexicographic order of `title`, one per distinct
title of the input, regardless of input order. -/
theorem C6_title_ordering (rs : List Record) :
    ((Clip.sortData (rs.map Entry.record)).map Movie.title).Pairwise
      (fun a b => strLt a b = true) ∧
    (∀ t, t ∈ (Clip.sortData (rs.map Entry.record)).map Movie.title ↔
      t ∈ rs.map Record.title) := by
  have hmap := map_title_sortData (rs.map Entry.record)
  constructor
  · rw [hmap]
    have hle : ((sortByTitle (rs.map Entry.record)).map Entry.title).Pairwise
        (fun a b => strLe a b = true) := by
      rw [List.pairwise_map]
      exact pairwise_sortByTitle _
    have hcomb := List.pairwise_and_iff.mpr
      ⟨pairwise_dedupFirst hle, nodup_dedupFirst _⟩
    exact hcomb.imp (fun h => strLt_iff.mpr ⟨h.1, h.2⟩)
  · intro t
    rw [hmap, mem_dedupFirst]
    constructor
    · intro h
      have h2 := ((sortByTitle_perm (rs.map Entry.record)).map Entry.title).mem_iff.mp h
      rw [List.map_map] at h2
      exact h2
    · intro h
      apply ((sortByTitle_perm (rs.map Entry.record)).map Entry.title).mem_iff.mpr
      rw [List.map_map]
      exact h

/-- Claim C7 (confirmed): `Clip.sort` neither drops nor duplicates
records — the timeline lengths of the grouped movies sum to the number of
input records. -/
theorem C7_grouping_completeness (rs : List Record) :
    ((Clip.sortData (rs.map Entry.record)).map
      (fun m => m.timeline.length)).sum = rs.length := by
  rw [sortData_length_sum, List.length_map]

/-- Claim C8 (confirmed): for un-finalized clips, merging concatenates the
right operand's records onto the left operand in order (returning the left
operand's object), and the two-step merge accumulates
`A.data ++ B.data ++ C.data`. -/
theorem C8_merge_concat (a b c : Clip) (ha : a.is_sorted = false)
    (hb : b.is_sorted = false) (hc : c.is_sorted = false) :
    (Clip.add a b).bind (fun ab => Clip.add ab c) =
      .ok ⟨a.data ++ b.data ++ c.data, false, a.contains_detail⟩ ∧
    Clip.add a b = .ok { a with data := a.data ++ b.data } := by
  have h1 : Clip.add a b = .ok { a with data := a.data ++ b.data } := by
    simp [Clip.add, ha, hb]
  refine ⟨?_, h1⟩
  rw [h1]
  show Except.bind _ _ = _
  simp [Except.bind, Clip.add, ha, hc, List.append_assoc]

/-- Claim C8, witness: the merge law on three concrete one-record clips. -/
theorem C8_merge_concat_witness :
    ((Clip.ofRecord recA0).is_sorted = false ∧
     (Clip.ofRecord recA12).is_sorted = false ∧
     (Clip.ofRecord recA15).is_sorted = false) ∧
    ((Clip.add (Clip.ofRecord recA0) (Clip.ofRecord recA12)).bind
        (fun ab => Clip.add ab (Clip.ofRecord recA15)) =
      .ok ⟨(Clip.ofRecord recA0).data ++ (Clip.ofRecord recA12).data ++
        (Clip.ofRecord recA15).data, false,
        (Clip.ofRecord recA0).contains_detail⟩ ∧
     Clip.add (Clip.ofRecord recA0) (Clip.ofRecord recA12) =
      .ok { Clip.ofRecord recA0 with
            data := (Clip.ofRecord recA0).data ++ (Clip.ofRecord recA12).data }) :=
  ⟨⟨rfl, rfl, rfl⟩, C8_merge_concat _ _ _ rfl rfl rfl⟩

/-- Claim C9 (confirmed): the colour tiers of `print_clip` are exactly
`Low` iff `avail < total / 4`, `Medium` iff
`total / 4 <= avail < total / 2`, `High` iff `avail >= total / 2`, with
floor division; the four boundary examples evaluate as the spec states. -/
theorem C9_capacity_boundaries (avail total : Nat) (h : 0 < total) :
    (classify avail total = Tier.Low ↔ avail < total / 4) ∧
    (classify avail total = Tier.Medium ↔
      total / 4 ≤ avail ∧ avail < total / 2) ∧
    (classify avail total = Tier.High ↔ total / 2 ≤ avail) ∧
    classify 24 100 = Tier.Low ∧ classify 25 100 = Tier.Medium ∧
    classify 49 100 = Tier.Medium ∧ classify 50 100 = Tier.High := by
  have hdiv : total / 4 ≤ total / 2 :=
    Nat.div_le_div_left (by omega) (by omega)
  refine ⟨?_, ?_, ?_, by decide, by decide, by decide, by decide⟩ <;>
    unfold classify <;> split_ifs with h1 h2 <;> simp_all <;> omega

/-- Claim C9, witness: the boundary law instantiated at
`avail = 24, total = 100`. -/
theorem C9_capacity_boundaries_witness :
    0 < 100 ∧
    ((classify 24 100 = Tier.Low ↔ 24 < 100 / 4) ∧
     (classify 24 100 = Tier.Medium ↔ 100 / 4 ≤ 24 ∧ 24 < 100 / 2) ∧
     (classify 24 100 = Tier.High ↔ 100 / 2 ≤ 24) ∧
     classify 24 100 = Tier.Low ∧ classify 25 100 = Tier.Medium ∧
     classify 49 100 = Tier.Medium ∧ classify 50 100 = Tier.High) :=
  ⟨by decide, C9_capacity_boundaries 24 100 (by decide)⟩

/-- Claim C10 (confirmed): within one title, `Clip.sort` preserves exactly
the relative insertion order of the records — each grouped movie's
timeline is the stripped subsequence of the input records of its title. -/
theorem C10_within_title_order (rs : List Record) (m : Movie)
    (hm : m ∈ Clip.sortData (rs.map Entry.record)) :
    m.timeline = (rs.filter (fun r => r.title == m.title)).map
      (fun r => Entry.rest (Entry.record r)) :=
  sortData_timeline rs m hm

/-- Claim C10, witness: order preservation on a concrete one-record
input. -/
theorem C10_within_title_order_witness :
    mvC10 ∈ Clip.sortData (rsC10.map Entry.record) ∧
    mvC10.timeline = (rsC10.filter (fun r => r.title == mvC10.title)).map
      (fun r => Entry.rest (Entry.record r)) :=
  have hmem : mvC10 ∈ Clip.sortData (rsC10.map Entry.record) := List.Mem.head _
  ⟨hmem, C10_within_title_order rsC10 mvC10 hmem⟩

end Pearl
